import Mathlib

/-!
Shallow embedding of the aggregation and geospatial binning core of
`simpleais/tools.py`.

Conventions of the embedding:
* Python `float` values are modelled as exact rationals (`ℚ`);
  `sys.float_info.epsilon` is the exact rational `2 ^ (-52)`.
* Python `dict` / `defaultdict(int)` values are modelled as association
  lists that preserve insertion order, exactly as CPython dicts do.
* A Python statement that can raise is modelled in `Except PyError`;
  code that cannot raise is a plain function.
* The `Sentence` records come from the excluded Sentence Source
  collaborator (not part of `tools.py`); following the spec's interface
  section, each accessor yields a present value or an absent one.
-/

/-- The Python exceptions the embedded code can raise. -/
inductive PyError
  | attributeError
  deriving Repr, DecidableEq

/-- Modelled from the spec: a decoded Sentence record from the external
Sentence Source.  `type_id()` is an integer, `sentence['mmsi']` is a
string or absent, `location()` is an optional (longitude, latitude)
pair, and field access by name (`shipname`, `destination`) returns a
present string or absent. -/
structure Sentence where
  type_id : ℤ
  mmsi : Option String
  location : Option (ℚ × ℚ)
  shipname : Option String
  destination : Option String
  deriving Repr, DecidableEq

/-- Insertion-ordered counting dict: `bump d k` is `d[k] += 1` on a
`defaultdict(int)` (a fresh key is appended at the end, an existing key
keeps its position). -/
def bump {κ : Type} [DecidableEq κ] : List (κ × ℕ) → κ → List (κ × ℕ)
  | [], k => [(k, 1)]
  | (k', v) :: rest, k =>
      if k' = k then (k', v + 1) :: rest else (k', v) :: bump rest k

/-- `class MaxMin` — the Extent Tracker.  `min`/`max` are `None` before
the first value is added. -/
structure MaxMin where
  min : Option ℚ
  max : Option ℚ
  deriving Repr, DecidableEq

/-- `MaxMin()` — the default construction with `starting=None`. -/
def MaxMin.init : MaxMin := { min := none, max := none }

/-- `MaxMin.valid`: `self.min is not None and self.min is not None`
(the source tests `min` twice; embedded verbatim). -/
def MaxMin.valid (m : MaxMin) : Bool := m.min.isSome && m.min.isSome

/-- `value > o` for an optional bound; on states reachable from
`MaxMin.init` the bound is present whenever it is read. -/
def optGt (value : ℚ) : Option ℚ → Bool
  | some x => decide (value > x)
  | none => false

/-- `value < o` for an optional bound. -/
def optLt (value : ℚ) : Option ℚ → Bool
  | some x => decide (value < x)
  | none => false

/-- `MaxMin.add`: first value sets `min = max = value`; afterwards
`max = max(max, value)` and `min = min(min, value)`.  (On the
unreachable mixed state where `min` is present but `max` absent the
Python code would raise a `TypeError`; there this embedding leaves
`max` unchanged — no claim or reachable state exercises it.) -/
def MaxMin.add (m : MaxMin) (value : ℚ) : MaxMin :=
  if m.valid then
    { min := if optLt value m.min then some value else m.min,
      max := if optGt value m.max then some value else m.max }
  else
    { min := some value, max := some value }

/-- Folding a whole stream of values into an Extent Tracker. -/
def MaxMin.addAll (m : MaxMin) (values : List ℚ) : MaxMin :=
  values.foldl MaxMin.add m

/-- `class GeoInfo` — a pair of Extent Trackers. -/
structure GeoInfo where
  lon : MaxMin
  lat : MaxMin
  deriving Repr, DecidableEq

/-- `GeoInfo()`. -/
def GeoInfo.init : GeoInfo := { lon := MaxMin.init, lat := MaxMin.init }

/-- `GeoInfo.add(point)`: `lon.add(point[0]); lat.add(point[1])`. -/
def GeoInfo.add (g : GeoInfo) (point : ℚ × ℚ) : GeoInfo :=
  { lon := g.lon.add point.1, lat := g.lat.add point.2 }

/-- `GeoInfo.valid`: conjunction of both trackers' validity. -/
def GeoInfo.valid (g : GeoInfo) : Bool := g.lon.valid && g.lat.valid

/-- `class SentencesInfo` — the Fleet Aggregator. -/
structure SentencesInfo where
  sentence_count : ℕ
  type_counts : List (ℤ × ℕ)
  sender_counts : List (Option String × ℕ)
  geo_info : GeoInfo
  deriving Repr, DecidableEq

/-- `SentencesInfo()`. -/
def SentencesInfo.init : SentencesInfo :=
  { sentence_count := 0, type_counts := [], sender_counts := [],
    geo_info := GeoInfo.init }

/-- `SentencesInfo.add(sentence)`: bump the total count, the per-type
count and the per-sender count, and feed the location to the Geo Extent
only when it is present (`if loc:` skips an absent location).  Never
raises. -/
def SentencesInfo.add (i : SentencesInfo) (s : Sentence) : SentencesInfo :=
  { sentence_count := i.sentence_count + 1,
    type_counts := bump i.type_counts s.type_id,
    sender_counts := bump i.sender_counts s.mmsi,
    geo_info :=
      match s.location with
      | some loc => i.geo_info.add loc
      | none => i.geo_info }

/-- Folding a whole stream of sentences into the Fleet Aggregator. -/
def SentencesInfo.addAll (i : SentencesInfo) (ss : List Sentence) : SentencesInfo :=
  ss.foldl SentencesInfo.add i

/-- `class Fields` — the descriptive-field store of a Sender
Aggregator; `values` is an insertion-ordered dict. -/
structure Fields where
  values : List (String × String)
  deriving Repr, DecidableEq

/-- `Fields()`. -/
def Fields.init : Fields := { values := [] }

/-- Python dict assignment `d[k] = v`: an existing key keeps its
position, a fresh key is appended. -/
def setkv : List (String × String) → String → String → List (String × String)
  | [], k, v => [(k, v)]
  | (k', v') :: rest, k, v =>
      if k' = k then (k, v) :: rest else (k', v') :: setkv rest k v

/-- Dict lookup, as an option (the claims only read present keys). -/
def Fields.getItem (f : Fields) (k : String) : Option String :=
  (f.values.find? (fun p => p.1 = k)).map Prod.snd

/-- A Python whitespace character, as `str.strip()` removes them. -/
def pyIsSpace (c : Char) : Bool :=
  c = ' ' || c = '\t' || c = '\n' || c = '\r' || c = '\x0b' || c = '\x0c'

/-- Python `str.strip()`: remove leading and trailing whitespace. -/
def pyStrip (s : String) : String :=
  String.mk (((s.data.dropWhile pyIsSpace).reverse.dropWhile pyIsSpace).reverse)

/-- `Fields.__setitem__(key, value)`: `value = value.strip()` — on an
absent value Python raises `AttributeError` (`None` has no `strip`);
then store only if `key` and the stripped value are non-empty
(`if key and value and len(value) > 0`). -/
def Fields.setItem (f : Fields) (key : String) (value : Option String) :
    Except PyError Fields :=
  match value with
  | none => .error .attributeError
  | some v =>
      let v := pyStrip v
      if key ≠ "" ∧ v ≠ "" then .ok { values := setkv f.values key v }
      else .ok f

/-- `class SenderInfo` — the Sender Aggregator. -/
structure SenderInfo where
  mmsi : Option String
  sentence_count : ℕ
  type_counts : List (ℤ × ℕ)
  fields : Fields
  deriving Repr, DecidableEq

/-- `SenderInfo()`. -/
def SenderInfo.init : SenderInfo :=
  { mmsi := none, sentence_count := 0, type_counts := [], fields := Fields.init }

/-- `SenderInfo.add(sentence)`: adopt the sender's mmsi when not yet
set (`if not self.mmsi:` — `None` and the empty string are falsy),
bump the counts, and for a type-5 sentence store the `shipname` and
`destination` fields through `Fields.__setitem__`. -/
def SenderInfo.add (si : SenderInfo) (s : Sentence) : Except PyError SenderInfo :=
  let mmsi := if si.mmsi = none ∨ si.mmsi = some "" then s.mmsi else si.mmsi
  let si' : SenderInfo :=
    { si with mmsi := mmsi, sentence_count := si.sentence_count + 1,
              type_counts := bump si.type_counts s.type_id }
  if s.type_id = 5 then do
    let f1 ← si'.fields.setItem "shipname" s.shipname
    let f2 ← f1.setItem "destination" s.destination
    pure { si' with fields := f2 }
  else
    pure si'

/-- `sys.float_info.epsilon` — exactly `2 ^ (-52)`. -/
def float_eps : ℚ := 1 / 2 ^ 52

/-- `numpy.linspace(start, finish, num)`: `num` evenly spaced points
`start + i * (finish - start) / (num - 1)` for `i = 0 … num - 1`
(exact rational arithmetic in place of floats). -/
def linspace (start finish : ℚ) (num : ℕ) : List ℚ :=
  (List.range num).map
    (fun i : ℕ => start + (i : ℚ) * ((finish - start) / ((num : ℚ) - 1)))

/-- `numpy.digitize(value, bins)` for monotonically increasing `bins`:
the number of edges `bins[j]` with `bins[j] ≤ value` (so `0` when the
value lies below every edge and `len(bins)` when it lies at or above
the last edge). -/
def digitize (value : ℚ) (bins : List ℚ) : ℕ :=
  (bins.filter (fun e => decide (e ≤ value))).length

/-- `class Bucketer` — the constructor arguments; `bins` and
`max_buckets` are computed from them in `__init__` and exposed below. -/
structure Bucketer where
  min_val : ℚ
  max_val : ℚ
  bucket_count : ℕ
  deriving Repr, DecidableEq

/-- `self.max_buckets = bucket_count - 1`. -/
def Bucketer.max_buckets (b : Bucketer) : ℤ := (b.bucket_count : ℤ) - 1

/-- `self.bins`: for a degenerate range (`min_val == max_val`) expand by
one unit on each side, otherwise span `min_val … max_val + ε`; divide
into `bucket_count + 1` evenly spaced edges. -/
def Bucketer.bins (b : Bucketer) : List ℚ :=
  if b.min_val = b.max_val then
    linspace (b.min_val - 1) (b.max_val + 1) (b.bucket_count + 1)
  else
    linspace b.min_val (b.max_val + float_eps) (b.bucket_count + 1)

/-- `Bucketer.bucket(value)`: `numpy.digitize(value, bins) - 1`, then
clamp any result above `max_buckets` down to `max_buckets` (the clamp
bounds the result from above only). -/
def Bucketer.bucket (b : Bucketer) (value : ℚ) : ℤ :=
  let result : ℤ := (digitize value b.bins : ℤ) - 1
  if result > b.max_buckets then b.max_buckets else result

/-- `class DensityMap` — accumulated points plus the running Geo
Extent; `width`/`height`/`indent` are fixed at construction (the only
construction in the program uses the defaults 60, 20, `""`). -/
structure DensityMap where
  width : ℕ
  height : ℕ
  indent : String
  geo_info : GeoInfo
  points : List (ℚ × ℚ)
  deriving Repr, DecidableEq

/-- `DensityMap(width, height, indent)`. -/
def DensityMap.init (width height : ℕ) (indent : String) : DensityMap :=
  { width := width, height := height, indent := indent,
    geo_info := GeoInfo.init, points := [] }

/-- `DensityMap.add(point)`: append the point and update the extent. -/
def DensityMap.add (d : DensityMap) (point : ℚ × ℚ) : DensityMap :=
  { d with points := d.points ++ [point], geo_info := d.geo_info.add point }

/-- Python list indexing: a negative index wraps from the end; a valid
index is returned as a `ℕ`, an out-of-range one as `none` (where
Python would raise `IndexError`). -/
def pyIndex (len : ℕ) (i : ℤ) : Option ℕ :=
  let j := if i < 0 then i + (len : ℤ) else i
  if 0 ≤ j ∧ j < (len : ℤ) then some j.toNat else none

/-- Replace the element at a position of a list. -/
def listModify {α : Type} : List α → ℕ → (α → α) → List α
  | [], _, _ => []
  | a :: rest, 0, f => f a :: rest
  | a :: rest, n + 1, f => a :: listModify rest n f

/-- `results[y][x] += 1` with Python indexing semantics; an
out-of-range index (unreachable for points inside the tracked extent,
where Python would raise) leaves the grid unchanged. -/
def pyInc2d (g : List (List ℕ)) (y x : ℤ) : List (List ℕ) :=
  match pyIndex g.length y with
  | none => g
  | some yi =>
      listModify g yi (fun row =>
        match pyIndex row.length x with
        | none => row
        | some xi => listModify row xi (fun c => c + 1))

/-- `DensityMap.to_counts`: a height × width grid of zero counts; when
the Geo Extent is valid, build one Bucketer per axis from it and
increment the cell of every accumulated point, flipping the latitude
bucket into a row index. -/
def DensityMap.to_counts (d : DensityMap) : List (List ℕ) :=
  let results := List.replicate d.height (List.replicate d.width 0)
  if d.geo_info.valid then
    match d.geo_info.lon.min, d.geo_info.lon.max,
          d.geo_info.lat.min, d.geo_info.lat.max with
    | some lonmin, some lonmax, some latmin, some latmax =>
        let xb : Bucketer :=
          { min_val := lonmin, max_val := lonmax, bucket_count := d.width }
        let yb : Bucketer :=
          { min_val := latmin, max_val := latmax, bucket_count := d.height }
        d.points.foldl (fun acc p =>
          pyInc2d acc ((d.height : ℤ) - 1 - yb.bucket p.2) (xb.bucket p.1)) results
    | _, _, _, _ => results
  else results

/-- Python `max(l)` on a list: absent on the empty list (where Python
raises `ValueError`). -/
def listMax : List ℕ → Option ℕ
  | [] => none
  | v :: rest => some (rest.foldl Nat.max v)

/-- Python string repetition `s * n`. -/
def pyTimes (s : String) (n : ℕ) : String := String.join (List.replicate n s)

/-- The cell renderer of `DensityMap.to_text`: a zero count prints a
blank, a positive one the digit `int(9.99999 * value / max_count)`
(exact rationals in place of floats; the zero branch is taken before
any division, so a zero `max_count` never divides). -/
def value_to_text (max_count value : ℕ) : String :=
  if value = 0 then " "
  else toString (Rat.floor ((999999 / 100000 : ℚ) * (value : ℚ) / (max_count : ℚ)))

/-- The list comprehension `[max(l) for l in counts]`: absent as soon
as one row is empty (where the inner `max` raises). -/
def rowMaxes : List (List ℕ) → Option (List ℕ)
  | [] => some []
  | row :: rest =>
      match listMax row, rowMaxes rest with
      | some m, some ms => some (m :: ms)
      | _, _ => none

/-- `DensityMap.to_text`: compute the counts, take
`max([max(l) for l in counts])` (absent — a raise in Python — when the
grid or a row is empty), then frame the rendered rows with `+---+`
borders.  (`to_counts` is pure, so reusing it in place of the Python
local `counts` is sound.) -/
def DensityMap.to_text (d : DensityMap) : Option (List String) :=
  match rowMaxes d.to_counts with
  | none => none
  | some ms =>
      match listMax ms with
      | none => none
      | some max_count =>
          some ((d.indent ++ "+" ++ pyTimes "-" d.width ++ "+") ::
            d.to_counts.map (fun row =>
              d.indent ++ "|" ++ String.join (row.map (value_to_text max_count)) ++ "|") ++
            [d.indent ++ "+" ++ pyTimes "-" d.width ++ "+"])

/-- Modelled from the spec: the rendered-text sink (the consumer of the
report, outside this repository) — it accepts `capacity` written lines
and then disappears; any later write raises `BrokenPipeError`. -/
inductive SinkError
  | brokenPipe
  deriving Repr, DecidableEq

/-- Modelled from the spec: writing report lines one at a time to a
sink of the given capacity; the write past the capacity raises, ending
the render immediately (no further line is written). -/
def writeLines : ℕ → List String → Except SinkError Unit
  | _, [] => .ok ()
  | 0, _ :: _ => .error .brokenPipe
  | capacity + 1, _ :: rest => writeLines capacity rest

/-- What the process does after the guarded block. -/
inductive Outcome
  | exits (code : ℕ)
  | completed
  deriving Repr, DecidableEq

/-- `wild_disregard_for(e)` around a body: `try: yield / except e:
exit(0)` — a body that raises the disregarded `BrokenPipeError` makes
the process exit with status 0; a body that completes just continues. -/
def wild_disregard_for (body : Except SinkError Unit) : Outcome :=
  match body with
  | .error _ => .exits 0
  | .ok _ => .completed

/-- The reporting phase of the `info` command: every report line is
printed inside one `wild_disregard_for(BrokenPipeError)` block; when
the block completes normally the command returns and the process also
exits with status 0. -/
def info_report_exit_code (lines : List String) (capacity : ℕ) : ℕ :=
  match wild_disregard_for (writeLines capacity lines) with
  | .exits c => c
  | .completed => 0
theorem digitize_pos (value : ℚ) (bins : List ℚ) (e : ℚ)
    (he : e ∈ bins) (hle : e ≤ value) : 1 ≤ digitize value bins := by
  unfold digitize
  have hmem : e ∈ bins.filter (fun x => decide (x ≤ value)) :=
    List.mem_filter.2 ⟨he, by simpa using hle⟩
  have hne := List.ne_nil_of_mem hmem
  have := List.length_pos.2 hne
  omega

theorem digitize_eq_zero (v : ℚ) (bins : List ℚ) (h : ∀ e ∈ bins, v < e) :
    digitize v bins = 0 := by
  unfold digitize
  rw [List.length_eq_zero, List.filter_eq_nil_iff]
  intro a ha
  simpa using (h a ha).not_le

theorem linspace_lower (a finish : ℚ) (num : ℕ) (hab : a ≤ finish) :
    ∀ e ∈ linspace a finish num, a ≤ e := by
  intro e he
  unfold linspace at he
  obtain ⟨i, hi, rfl⟩ := List.mem_map.1 he
  have hnum : 1 ≤ num := by
    have := List.mem_range.1 hi
    omega
  have hnq : (1 : ℚ) ≤ (num : ℚ) := by exact_mod_cast hnum
  have hdiv : (0 : ℚ) ≤ (finish - a) / ((num : ℚ) - 1) := by
    apply div_nonneg (by linarith)
    linarith
  have hterm : (0 : ℚ) ≤ (i : ℚ) * ((finish - a) / ((num : ℚ) - 1)) :=
    mul_nonneg (by positivity) hdiv
  linarith

/-- Claim C3: for `Bucketer(0, 10, 5)`, `bucket(0) = 0`, `bucket(10) = 4`,
`bucket(5) = 2` (a fixed value in `{1, 2}` — in particular it is the same
on every construction with these inputs, `bucket` being a function of the
constructor arguments), and every value in the closed interval `[0, 10]`
is mapped to an index in `[0, 4]`. -/
theorem bucketer_0_10_5 :
    (Bucketer.mk 0 10 5).bucket 0 = 0 ∧
    (Bucketer.mk 0 10 5).bucket 10 = 4 ∧
    (Bucketer.mk 0 10 5).bucket 5 = 2 ∧
    ((Bucketer.mk 0 10 5).bucket 5 = 1 ∨ (Bucketer.mk 0 10 5).bucket 5 = 2) ∧
    ∀ q : ℚ, 0 ≤ q → q ≤ 10 →
      0 ≤ (Bucketer.mk 0 10 5).bucket q ∧ (Bucketer.mk 0 10 5).bucket q ≤ 4 := by
  have h0 : (Bucketer.mk 0 10 5).bucket 0 = 0 := by
    norm_num [Bucketer.bucket, Bucketer.max_buckets, Bucketer.bins, digitize, linspace,
      float_eps, List.range_succ]
  have h10 : (Bucketer.mk 0 10 5).bucket 10 = 4 := by
    norm_num [Bucketer.bucket, Bucketer.max_buckets, Bucketer.bins, digitize, linspace,
      float_eps, List.range_succ]
  have h5 : (Bucketer.mk 0 10 5).bucket 5 = 2 := by
    norm_num [Bucketer.bucket, Bucketer.max_buckets, Bucketer.bins, digitize, linspace,
      float_eps, List.range_succ]
  refine ⟨h0, h10, h5, Or.inr h5, fun q hq0 _ => ?_⟩
  have hmem : (0 : ℚ) ∈ (Bucketer.mk 0 10 5).bins := by
    norm_num [Bucketer.bins, linspace, float_eps, List.range_succ]
  have h1 : 1 ≤ digitize q (Bucketer.mk 0 10 5).bins :=
    digitize_pos q _ 0 hmem hq0
  simp only [Bucketer.bucket, Bucketer.max_buckets]
  split <;> constructor <;> omega

/-- Claim C4: for the degenerate `Bucketer(7, 7, 4)` the constructor
expands the range to `6 … 8` and divides it into five evenly spaced
edges (total construction — no exception), and `bucket(7) = 2`, an
index inside `[0, 3]`. -/
theorem bucketer_degenerate_7_4 :
    (Bucketer.mk 7 7 4).bins = [6, 13/2, 7, 15/2, 8] ∧
    (Bucketer.mk 7 7 4).bucket 7 = 2 ∧
    0 ≤ (Bucketer.mk 7 7 4).bucket 7 ∧ (Bucketer.mk 7 7 4).bucket 7 ≤ 3 := by
  have hbins : (Bucketer.mk 7 7 4).bins = [6, 13/2, 7, 15/2, 8] := by
    norm_num [Bucketer.bins, linspace, List.range_succ]
  have hb : (Bucketer.mk 7 7 4).bucket 7 = 2 := by
    norm_num [Bucketer.bucket, Bucketer.max_buckets, digitize, hbins]
  exact ⟨hbins, hb, by rw [hb]; norm_num, by rw [hb]; norm_num⟩

/-- Claim C10: a value strictly below the lowest constructed edge
(`min_val − 1` in the degenerate case, `min_val` otherwise) digitizes to
`0`, so `bucket` returns `0 − 1 = −1`: the clamp bounds the result from
above only and such inputs yield a negative index. -/
theorem bucket_below_range (mn mx : ℚ) (n : ℕ) (hmn : mn ≤ mx) (hn : 1 ≤ n)
    (v : ℚ) (hv : v < (if mn = mx then mn - 1 else mn)) :
    (Bucketer.mk mn mx n).bucket v = -1 := by
  have hzero : digitize v (Bucketer.mk mn mx n).bins = 0 := by
    apply digitize_eq_zero
    intro e he
    by_cases hcase : mn = mx
    · rw [if_pos hcase] at hv
      have hbins : (Bucketer.mk mn mx n).bins =
          linspace (mn - 1) (mx + 1) (n + 1) := by
        simp [Bucketer.bins, hcase]
      rw [hbins] at he
      have := linspace_lower (mn - 1) (mx + 1) (n + 1) (by linarith) e he
      linarith
    · rw [if_neg hcase] at hv
      have hbins : (Bucketer.mk mn mx n).bins =
          linspace mn (mx + float_eps) (n + 1) := by
        simp [Bucketer.bins, hcase]
      rw [hbins] at he
      have heps : (0 : ℚ) < float_eps := by norm_num [float_eps]
      have := linspace_lower mn (mx + float_eps) (n + 1) (by linarith) e he
      linarith
  simp only [Bucketer.bucket, Bucketer.max_buckets, hzero]
  split <;> omega

theorem bucketer_0_10_5_witness :
    0 ≤ (Bucketer.mk 0 10 5).bucket 7 ∧ (Bucketer.mk 0 10 5).bucket 7 ≤ 4 :=
  bucketer_0_10_5.2.2.2.2 7 (by norm_num) (by norm_num)

theorem bucket_below_range_witness : (Bucketer.mk 0 10 5).bucket (-1) = -1 :=
  bucket_below_range 0 10 5 (by norm_num) (by norm_num) (-1) (by norm_num)

theorem maxmin_add_some (mn mx v : ℚ) :
    (MaxMin.mk (some mn) (some mx)).add v =
      MaxMin.mk (some (Min.min mn v)) (some (Max.max mx v)) := by
  unfold MaxMin.add MaxMin.valid optLt optGt
  by_cases h1 : v < mn <;> by_cases h2 : v > mx <;>
    simp [h1, h2, min_def, max_def] <;>
    constructor <;> first
      | rfl
      | (congr 1; omega)
      | (congr 1; linarith)
      | (split <;> first | rfl | linarith)

theorem maxmin_addAll_some (values : List ℚ) : ∀ mn mx : ℚ,
    (MaxMin.mk (some mn) (some mx)).addAll values =
      MaxMin.mk (some (values.foldl Min.min mn)) (some (values.foldl Max.max mx)) := by
  induction values with
  | nil => intro mn mx; rfl
  | cons v rest ih =>
      intro mn mx
      show (((MaxMin.mk (some mn) (some mx)).add v).addAll rest) = _
      rw [maxmin_add_some, ih]
      rfl

theorem maxmin_addAll_cons (v : ℚ) (rest : List ℚ) :
    MaxMin.init.addAll (v :: rest) =
      MaxMin.mk (some (rest.foldl Min.min v)) (some (rest.foldl Max.max v)) := by
  show ((MaxMin.init.add v).addAll rest) = _
  have h : MaxMin.init.add v = MaxMin.mk (some v) (some v) := rfl
  rw [h, maxmin_addAll_some]

theorem foldl_min_le (rest : List ℚ) : ∀ a : ℚ, rest.foldl Min.min a ≤ a := by
  induction rest with
  | nil => intro a; exact le_refl a
  | cons x xs ih => intro a; exact le_trans (ih (Min.min a x)) (min_le_left a x)

theorem foldl_min_le_mem (rest : List ℚ) :
    ∀ a x : ℚ, x ∈ rest → rest.foldl Min.min a ≤ x := by
  induction rest with
  | nil => intro a x hx; cases hx
  | cons y ys ih =>
      intro a x hx
      rcases List.mem_cons.1 hx with rfl | hx'
      · exact le_trans (foldl_min_le ys (Min.min a x)) (min_le_right a x)
      · exact ih (Min.min a y) x hx'

theorem foldl_min_mem (rest : List ℚ) :
    ∀ a : ℚ, rest.foldl Min.min a = a ∨ rest.foldl Min.min a ∈ rest := by
  induction rest with
  | nil => intro a; left; rfl
  | cons x xs ih =>
      intro a
      rcases ih (Min.min a x) with h | h
      · rcases min_choice a x with hc | hc
        · left; rw [List.foldl_cons, h, hc]
        · right; rw [List.foldl_cons, h, hc]; exact List.mem_cons_self x xs
      · right; exact List.mem_cons_of_mem x h

theorem foldl_max_ge (rest : List ℚ) : ∀ a : ℚ, a ≤ rest.foldl Max.max a := by
  induction rest with
  | nil => intro a; exact le_refl a
  | cons x xs ih => intro a; exact le_trans (le_max_left a x) (ih (Max.max a x))

theorem foldl_max_ge_mem (rest : List ℚ) :
    ∀ a x : ℚ, x ∈ rest → x ≤ rest.foldl Max.max a := by
  induction rest with
  | nil => intro a x hx; cases hx
  | cons y ys ih =>
      intro a x hx
      rcases List.mem_cons.1 hx with rfl | hx'
      · exact le_trans (le_max_right a x) (foldl_max_ge ys (Max.max a x))
      · exact ih (Max.max a y) x hx'

theorem foldl_max_mem (rest : List ℚ) :
    ∀ a : ℚ, rest.foldl Max.max a = a ∨ rest.foldl Max.max a ∈ rest := by
  induction rest with
  | nil => intro a; left; rfl
  | cons x xs ih =>
      intro a
      rcases ih (Max.max a x) with h | h
      · rcases max_choice a x with hc | hc
        · left; rw [List.foldl_cons, h, hc]
        · right; rw [List.foldl_cons, h, hc]; exact List.mem_cons_self x xs
      · right; exact List.mem_cons_of_mem x h

theorem foldl_min_spec (v : ℚ) (rest : List ℚ) :
    rest.foldl Min.min v ∈ v :: rest ∧
      ∀ x ∈ v :: rest, rest.foldl Min.min v ≤ x := by
  constructor
  · rcases foldl_min_mem rest v with h | h
    · rw [h]; exact List.mem_cons_self v rest
    · exact List.mem_cons_of_mem v h
  · intro x hx
    rcases List.mem_cons.1 hx with rfl | hx'
    · exact foldl_min_le rest x
    · exact foldl_min_le_mem rest v x hx'

theorem foldl_max_spec (v : ℚ) (rest : List ℚ) :
    rest.foldl Max.max v ∈ v :: rest ∧
      ∀ x ∈ v :: rest, x ≤ rest.foldl Max.max v := by
  constructor
  · rcases foldl_max_mem rest v with h | h
    · rw [h]; exact List.mem_cons_self v rest
    · exact List.mem_cons_of_mem v h
  · intro x hx
    rcases List.mem_cons.1 hx with rfl | hx'
    · exact foldl_max_ge rest x
    · exact foldl_max_ge_mem rest v x hx'

theorem maxmin_addAll_perm {l1 l2 : List ℚ} (p : l1.Perm l2) :
    MaxMin.init.addAll l1 = MaxMin.init.addAll l2 := by
  cases l1 with
  | nil =>
      have h2 : l2 = [] := by
        have := p.length_eq
        simpa [List.length_eq_zero] using this.symm
      rw [h2]
  | cons v rest =>
      cases l2 with
      | nil =>
          have := p.length_eq
          simp at this
      | cons w rest2 =>
          rw [maxmin_addAll_cons, maxmin_addAll_cons]
          obtain ⟨hm1, hle1⟩ := foldl_min_spec v rest
          obtain ⟨hm2, hle2⟩ := foldl_min_spec w rest2
          obtain ⟨hM1, hge1⟩ := foldl_max_spec v rest
          obtain ⟨hM2, hge2⟩ := foldl_max_spec w rest2
          have e1 : rest.foldl Min.min v = rest2.foldl Min.min w :=
            le_antisymm (hle1 _ (p.mem_iff.2 hm2)) (hle2 _ (p.mem_iff.1 hm1))
          have e2 : rest.foldl Max.max v = rest2.foldl Max.max w :=
            le_antisymm (hge2 _ (p.mem_iff.1 hM1)) (hge1 _ (p.mem_iff.2 hM2))
          rw [e1, e2]

/-- Claim C6: after feeding any non-empty finite sequence of reals to an
Extent Tracker, `min` holds the minimum of the values added and `max`
their maximum (an added value below, respectively above, every other),
and the resulting tracker state is the same for every permutation of the
insertion order. -/
theorem maxmin_extremes (vs : List ℚ) (h : vs ≠ []) :
    (∃ mn, (MaxMin.init.addAll vs).min = some mn ∧ mn ∈ vs ∧ ∀ x ∈ vs, mn ≤ x) ∧
    (∃ mx, (MaxMin.init.addAll vs).max = some mx ∧ mx ∈ vs ∧ ∀ x ∈ vs, x ≤ mx) ∧
    (∀ vs' : List ℚ, vs.Perm vs' → MaxMin.init.addAll vs' = MaxMin.init.addAll vs) := by
  match vs, h with
  | v :: rest, _ =>
      refine ⟨?_, ?_, fun vs' p => maxmin_addAll_perm p.symm⟩
      · obtain ⟨hm, hle⟩ := foldl_min_spec v rest
        exact ⟨rest.foldl Min.min v, by rw [maxmin_addAll_cons], hm, hle⟩
      · obtain ⟨hM, hge⟩ := foldl_max_spec v rest
        exact ⟨rest.foldl Max.max v, by rw [maxmin_addAll_cons], hM, hge⟩

theorem maxmin_extremes_witness :
    ∃ mn, (MaxMin.init.addAll [3, 1, 2]).min = some mn ∧
      mn ∈ ([3, 1, 2] : List ℚ) ∧ ∀ x ∈ ([3, 1, 2] : List ℚ), mn ≤ x :=
  (maxmin_extremes [3, 1, 2] (by simp)).1

/-- Claim C7: for every Extent Tracker state reachable from the
default-constructed state by a sequence of `add` operations: the state
is valid exactly when at least one value has been added (`min`/`max`
absent only before the first add), validity implies `min ≤ max`, and a
further `add` never increases `min` and never decreases `max`. -/
theorem maxmin_invariants (l : List ℚ) (v : ℚ) :
    ((MaxMin.init.addAll l).valid = true ↔ l ≠ []) ∧
    ((MaxMin.init.addAll l).valid = true →
      ∃ mn mx, (MaxMin.init.addAll l).min = some mn ∧
        (MaxMin.init.addAll l).max = some mx ∧ mn ≤ mx) ∧
    (∀ mn, (MaxMin.init.addAll l).min = some mn →
      ∃ mn', ((MaxMin.init.addAll l).add v).min = some mn' ∧ mn' ≤ mn) ∧
    (∀ mx, (MaxMin.init.addAll l).max = some mx →
      ∃ mx', ((MaxMin.init.addAll l).add v).max = some mx' ∧ mx ≤ mx') := by
  cases l with
  | nil =>
      refine ⟨by simp [MaxMin.addAll, MaxMin.init, MaxMin.valid], ?_, ?_, ?_⟩
      · intro hvalid
        simp [MaxMin.addAll, MaxMin.init, MaxMin.valid] at hvalid
      · intro mn hmn
        simp [MaxMin.addAll, MaxMin.init] at hmn
      · intro mx hmx
        simp [MaxMin.addAll, MaxMin.init] at hmx
  | cons v0 rest =>
      rw [maxmin_addAll_cons]
      obtain ⟨_, hle⟩ := foldl_min_spec v0 rest
      obtain ⟨_, hge⟩ := foldl_max_spec v0 rest
      refine ⟨by simp [MaxMin.valid], ?_, ?_, ?_⟩
      · intro _
        refine ⟨rest.foldl Min.min v0, rest.foldl Max.max v0, rfl, rfl, ?_⟩
        exact le_trans (hle v0 (List.mem_cons_self v0 rest))
          (hge v0 (List.mem_cons_self v0 rest))
      · intro mn hmn
        rw [maxmin_add_some]
        refine ⟨Min.min (rest.foldl Min.min v0) v, rfl, ?_⟩
        rw [← Option.some.inj hmn]
        exact min_le_left _ v
      · intro mx hmx
        rw [maxmin_add_some]
        refine ⟨Max.max (rest.foldl Max.max v0) v, rfl, ?_⟩
        rw [← Option.some.inj hmx]
        exact le_max_left _ v

theorem maxmin_invariants_witness :
    (∃ mn mx, (MaxMin.init.addAll [5, 2]).min = some mn ∧
      (MaxMin.init.addAll [5, 2]).max = some mx ∧ mn ≤ mx) ∧
    (∃ mn', ((MaxMin.init.addAll [5, 2]).add 7).min = some mn' ∧ mn' ≤ 2) :=
  ⟨(maxmin_invariants [5, 2] 7).2.1 (by norm_num [MaxMin.addAll, MaxMin.init,
      MaxMin.add, MaxMin.valid, optLt, optGt, List.foldl]),
   (maxmin_invariants [5, 2] 7).2.2.1 2 (by norm_num [MaxMin.addAll, MaxMin.init,
      MaxMin.add, MaxMin.valid, optLt, optGt, List.foldl])⟩

theorem bump_keys {κ : Type} [DecidableEq κ] (d : List (κ × ℕ)) (k : κ) :
    (bump d k).map Prod.fst =
      if k ∈ d.map Prod.fst then d.map Prod.fst else d.map Prod.fst ++ [k] := by
  induction d with
  | nil => simp [bump]
  | cons p rest ih =>
      obtain ⟨k', v⟩ := p
      by_cases h : k' = k
      · subst h; simp [bump]
      · have h' : ¬k = k' := fun hh => h hh.symm
        simp only [bump, if_neg h, List.map_cons, List.mem_cons, h', false_or, ih]
        split <;> simp

theorem bump_snd_sum {κ : Type} [DecidableEq κ] (d : List (κ × ℕ)) (k : κ) :
    ((bump d k).map Prod.snd).sum = (d.map Prod.snd).sum + 1 := by
  induction d with
  | nil => simp [bump]
  | cons p rest ih =>
      obtain ⟨k', v⟩ := p
      by_cases h : k' = k <;> simp [bump, h, ih] <;> omega

theorem bump_keys_nodup {κ : Type} [DecidableEq κ] (d : List (κ × ℕ)) (k : κ)
    (hd : (d.map Prod.fst).Nodup) : ((bump d k).map Prod.fst).Nodup := by
  rw [bump_keys]
  split
  · exact hd
  · simp only [List.nodup_append, List.nodup_cons, List.nodup_nil]
    refine ⟨hd, by simp, ?_⟩
    intro a ha hb
    simp only [List.mem_singleton] at hb
    subst hb
    exact absurd ha (by assumption)

theorem bump_keys_mem {κ : Type} [DecidableEq κ] (d : List (κ × ℕ)) (k a : κ) :
    a ∈ (bump d k).map Prod.fst ↔ a ∈ d.map Prod.fst ∨ a = k := by
  rw [bump_keys]
  split
  · constructor
    · exact fun h => Or.inl h
    · rintro (h | rfl)
      · exact h
      · assumption
  · simp

theorem sentences_info_state (ss : List Sentence) : ∀ i : SentencesInfo,
    (SentencesInfo.addAll i ss).sentence_count = i.sentence_count + ss.length ∧
    ((SentencesInfo.addAll i ss).type_counts.map Prod.snd).sum =
      (i.type_counts.map Prod.snd).sum + ss.length ∧
    ((i.sender_counts.map Prod.fst).Nodup →
      ((SentencesInfo.addAll i ss).sender_counts.map Prod.fst).Nodup) ∧
    (∀ a, a ∈ (SentencesInfo.addAll i ss).sender_counts.map Prod.fst ↔
      a ∈ i.sender_counts.map Prod.fst ∨ a ∈ ss.map Sentence.mmsi) := by
  induction ss with
  | nil => intro i; simp [SentencesInfo.addAll]
  | cons s rest ih =>
      intro i
      have step : SentencesInfo.addAll i (s :: rest) =
          SentencesInfo.addAll (i.add s) rest := rfl
      rw [step]
      obtain ⟨h1, h2, h3, h4⟩ := ih (i.add s)
      refine ⟨?_, ?_, ?_, ?_⟩
      · rw [h1]; simp [SentencesInfo.add]; omega
      · rw [h2]; simp [SentencesInfo.add, bump_snd_sum]; omega
      · intro hn
        exact h3 (bump_keys_nodup i.sender_counts s.mmsi hn)
      · intro a
        rw [h4]
        show a ∈ (bump i.sender_counts s.mmsi).map Prod.fst ∨ _ ↔ _
        rw [bump_keys_mem]
        simp only [List.map_cons, List.mem_cons]
        tauto

/-- Claim C8: the Fleet Aggregator fed a stream of N sentences, each
carrying a sender identifier, of which exactly K distinct identifiers
occur, reports a sentence count of N, per-type counts summing to N, and
exactly K entries in its per-sender count dict. -/
theorem fleet_counts (ss : List Sentence) (h : ∀ s ∈ ss, s.mmsi.isSome) :
    (SentencesInfo.init.addAll ss).sentence_count = ss.length ∧
    ((SentencesInfo.init.addAll ss).type_counts.map Prod.snd).sum = ss.length ∧
    (SentencesInfo.init.addAll ss).sender_counts.length =
      (ss.map Sentence.mmsi).dedup.length := by
  obtain ⟨h1, h2, h3, h4⟩ := sentences_info_state ss SentencesInfo.init
  refine ⟨by simpa [SentencesInfo.init] using h1,
    by simpa [SentencesInfo.init] using h2, ?_⟩
  have hnodup : ((SentencesInfo.init.addAll ss).sender_counts.map Prod.fst).Nodup :=
    h3 (by simp [SentencesInfo.init])
  have hmem : ∀ a, a ∈ (SentencesInfo.init.addAll ss).sender_counts.map Prod.fst ↔
      a ∈ ss.map Sentence.mmsi := by
    intro a
    rw [h4]
    simp [SentencesInfo.init]
  have hlen : (SentencesInfo.init.addAll ss).sender_counts.length =
      ((SentencesInfo.init.addAll ss).sender_counts.map Prod.fst).length := by
    simp
  rw [hlen, ← List.toFinset_card_of_nodup hnodup, ← List.card_toFinset]
  congr 1
  ext a
  simp only [List.mem_toFinset]
  exact hmem a

theorem fleet_counts_witness :
    (SentencesInfo.init.addAll
        [Sentence.mk 1 (some "A") (some (10, 20)) none none,
         Sentence.mk 1 (some "A") (some (21/2, 41/2)) none none,
         Sentence.mk 5 (some "B") none (some "X") (some "Y")]).sentence_count = 3 ∧
    ((SentencesInfo.init.addAll
        [Sentence.mk 1 (some "A") (some (10, 20)) none none,
         Sentence.mk 1 (some "A") (some (21/2, 41/2)) none none,
         Sentence.mk 5 (some "B") none (some "X") (some "Y")]).type_counts.map
      Prod.snd).sum = 3 ∧
    (SentencesInfo.init.addAll
        [Sentence.mk 1 (some "A") (some (10, 20)) none none,
         Sentence.mk 1 (some "A") (some (21/2, 41/2)) none none,
         Sentence.mk 5 (some "B") none (some "X") (some "Y")]).sender_counts.length =
      ([some "A", some "A", some "B"] : List (Option String)).dedup.length := by
  have h := fleet_counts
    [Sentence.mk 1 (some "A") (some (10, 20)) none none,
     Sentence.mk 1 (some "A") (some (21/2, 41/2)) none none,
     Sentence.mk 5 (some "B") none (some "X") (some "Y")]
    (by simp)
  simpa using h

theorem foldl_max_zeros : ∀ m : ℕ, (List.replicate m 0).foldl Nat.max 0 = 0 := by
  intro m
  induction m with
  | zero => rfl
  | succ k ih => simpa [List.replicate_succ] using ih

theorem listMax_replicate_zero (n : ℕ) (hn : 0 < n) :
    listMax (List.replicate n (0 : ℕ)) = some 0 := by
  cases n with
  | zero => omega
  | succ k =>
      simp only [List.replicate_succ, listMax]
      rw [foldl_max_zeros k]

theorem rowMaxes_replicate (n : ℕ) (row : List ℕ) (m : ℕ)
    (hrow : listMax row = some m) :
    rowMaxes (List.replicate n row) = some (List.replicate n m) := by
  induction n with
  | zero => rfl
  | succ k ih => simp [List.replicate_succ, rowMaxes, hrow, ih]

theorem density_map_empty_counts (w h : ℕ) (indent : String) :
    (DensityMap.init w h indent).to_counts = List.replicate h (List.replicate w 0) := by
  simp [DensityMap.to_counts, DensityMap.init, GeoInfo.valid, GeoInfo.init,
    MaxMin.valid, MaxMin.init]

/-- Claim C5: a Density Map to which no point was ever added computes a
height × width grid of all-zero counts and renders (totally — no raise,
no division by zero, no out-of-range indexing; the counts are built on
the invalid-extent branch and the zero cells never reach the division)
a grid of blank interior cells framed by `-` borders top and bottom
(with `+` corners) and `|` borders left and right. -/
theorem density_map_empty_render (w h : ℕ) (hw : 0 < w) (hh : 0 < h) :
    (DensityMap.init w h "").to_counts = List.replicate h (List.replicate w 0) ∧
    (DensityMap.init w h "").to_text =
      some (("+" ++ pyTimes "-" w ++ "+") ::
        List.replicate h ("|" ++ String.join (List.replicate w " ") ++ "|") ++
        [("+" ++ pyTimes "-" w ++ "+")]) := by
  refine ⟨density_map_empty_counts w h "", ?_⟩
  unfold DensityMap.to_text
  rw [density_map_empty_counts]
  rw [rowMaxes_replicate h (List.replicate w 0) 0 (listMax_replicate_zero w hw)]
  dsimp only
  rw [listMax_replicate_zero h hh]
  dsimp only [DensityMap.init]
  rw [List.map_replicate, List.map_replicate]
  rfl

theorem density_map_empty_render_witness :
    (DensityMap.init 60 20 "").to_counts =
      List.replicate 20 (List.replicate 60 0) ∧
    (DensityMap.init 60 20 "").to_text =
      some (("+" ++ pyTimes "-" 60 ++ "+") ::
        List.replicate 20 ("|" ++ String.join (List.replicate 60 " ") ++ "|") ++
        [("+" ++ pyTimes "-" 60 ++ "+")]) :=
  density_map_empty_render 60 20 (by norm_num) (by norm_num)

/-- Claim C1 is false on the code: `Fields.__setitem__` stores every
non-empty value unconditionally, so feeding a sender two type-5
sentences whose `shipname` values are `"A"` then `"B"` leaves the
aggregator holding `"B"`, not the first value `"A"` — subsequent
non-empty values do overwrite. -/
theorem fields_overwrite_cex :
    ((SenderInfo.init.add
        (Sentence.mk 5 (some "123") none (some "A") (some "X"))).bind
      (fun si => si.add
        (Sentence.mk 5 (some "123") none (some "B") (some "Y")))).map
      (fun si => si.fields.getItem "shipname") = .ok (some "B") ∧
    some "B" ≠ some "A" := by
  constructor
  · rfl
  · simp

theorem find_setkv (l : List (String × String)) (k v : String) :
    ((setkv l k v).find? (fun p => decide (p.1 = k))).map Prod.snd = some v := by
  induction l with
  | nil => simp [setkv]
  | cons p rest ih =>
      obtain ⟨k', v'⟩ := p
      by_cases h : k' = k
      · subst h; simp [setkv]
      · simp only [setkv, if_neg h]
        rw [List.find?_cons_of_neg _ (by simpa using h)]
        exact ih

/-- Claim C1, amended: descriptive-field capture is last-write-wins
among non-empty values — a set with a non-empty (after stripping) value
always stores the stripped value, overwriting any earlier one, while a
set whose value strips to empty leaves the store unchanged (so empty
values never erase a captured field). -/
theorem fields_last_write_wins (f : Fields) (k v w : String)
    (hk : k ≠ "") (hv : pyStrip v ≠ "") (hw : pyStrip w = "") :
    (f.setItem k (some v)).map (fun g => g.getItem k) = .ok (some (pyStrip v)) ∧
    f.setItem k (some w) = .ok f := by
  constructor
  · simp only [Fields.setItem, if_pos (And.intro hk hv), Except.map]
    simp only [Fields.getItem]
    exact congrArg Except.ok (find_setkv f.values k (pyStrip v))
  · simp [Fields.setItem, hw]

theorem fields_last_write_wins_witness :
    ((Fields.mk [("shipname", "A")]).setItem "shipname" (some "B")).map
      (fun g => g.getItem "shipname") = .ok (some "B") ∧
    (Fields.mk [("shipname", "A")]).setItem "shipname" (some " ") =
      .ok (Fields.mk [("shipname", "A")]) := by
  have h := fields_last_write_wins (Fields.mk [("shipname", "A")]) "shipname" "B" " "
    (by decide) (by decide) (by decide)
  rw [show pyStrip "B" = "B" from rfl] at h
  exact h

/-- Claim C2 fails on the code for one of its cases: a type-5 sentence
whose `shipname` field is absent makes `SenderInfo.add` raise (Python:
`AttributeError` from `None.strip()` in `Fields.__setitem__`) instead
of skipping the absent field, while the Fleet Aggregator's add on the
very same sentence (and on a sentence with an absent position) does
complete normally. -/
theorem absent_shipname_raises :
    SenderInfo.init.add (Sentence.mk 5 (some "123") none none (some "X")) =
      .error .attributeError ∧
    (SentencesInfo.init.add
      (Sentence.mk 5 (some "123") none none (some "X"))).sentence_count = 1 ∧
    (SentencesInfo.init.add
      (Sentence.mk 5 (some "123") none none (some "X"))).geo_info =
      GeoInfo.init := by
  exact ⟨rfl, rfl, rfl⟩

theorem writeLines_breaks : ∀ (lines : List String) (capacity : ℕ),
    capacity < lines.length → writeLines capacity lines = .error .brokenPipe := by
  intro lines
  induction lines with
  | nil => intro c hc; simp at hc
  | cons s rest ih =>
      intro c hc
      cases c with
      | zero => rfl
      | succ c' =>
          show writeLines c' rest = .error .brokenPipe
          exact ih c' (by simpa using hc)

/-- Claim C9: the report phase runs inside `wild_disregard_for`
(`BrokenPipeError`); whatever the sink's capacity, the process ends
with exit status 0 — and when the sink breaks mid-render the write
raises `BrokenPipeError`, the render stops there, and the handler turns
it into `exit(0)`, never an escalated failure. -/
theorem broken_pipe_reports_success (lines : List String) (capacity : ℕ) :
    info_report_exit_code lines capacity = 0 ∧
    (capacity < lines.length →
      writeLines capacity lines = .error .brokenPipe ∧
      wild_disregard_for (writeLines capacity lines) = .exits 0) := by
  constructor
  · unfold info_report_exit_code
    cases hw : writeLines capacity lines <;> simp [wild_disregard_for, hw]
  · intro hlt
    have hw := writeLines_breaks lines capacity hlt
    exact ⟨hw, by rw [hw]; rfl⟩

theorem broken_pipe_reports_success_witness :
    info_report_exit_code ["a", "b"] 1 = 0 ∧
    (writeLines 1 ["a", "b"] = .error .brokenPipe ∧
      wild_disregard_for (writeLines 1 ["a", "b"]) = .exits 0) :=
  ⟨(broken_pipe_reports_success ["a", "b"] 1).1,
   (broken_pipe_reports_success ["a", "b"] 1).2 (by norm_num)⟩
